import Mathlib

/-!
Shallow embedding of the bankParse converter server
(`src/converter/server/aiProcessor.js`, `db.js`, `server.js`).
JavaScript numbers are modelled as rationals (`ℚ`); a JavaScript `NaN`
produced by `parseFloat` is modelled as `Option.none`.  Strings are modelled
by Lean strings through their character lists (JavaScript `.length` counts
UTF-16 units, Lean counts characters; no input in this development contains
astral-plane characters, where the two differ).
-/

namespace BankParse

/-! ### JavaScript string primitives used by the server -/

def isJsSpaceChar (c : Char) : Bool :=
  c = ' ' || c = '\t' || c = '\n' || c = '\r' || c = '\x0b' || c = '\x0c'

/-- Does the first list start with the second list? -/
def listStartsWith : List Char → List Char → Bool
  | _, [] => true
  | [], _ :: _ => false
  | h :: hs, p :: ps => h == p && listStartsWith hs ps

/-- Does the list contain `pat` as a contiguous sublist?  Models
JavaScript `String.prototype.includes`. -/
def listHasSub (pat : List Char) : List Char → Bool
  | [] => pat.isEmpty
  | c :: rest => listStartsWith (c :: rest) pat || listHasSub pat rest

/-- JavaScript `hay.includes(pat)`. -/
def strContains (hay pat : String) : Bool :=
  listHasSub pat.data hay.data

/-- JavaScript `s.endsWith(suffix)`. -/
def strEndsWith (s suffix : String) : Bool :=
  listStartsWith s.data.reverse suffix.data.reverse

/-- JavaScript `s.trim()`. -/
def jsTrim (s : String) : String :=
  ⟨((s.data.dropWhile isJsSpaceChar).reverse.dropWhile isJsSpaceChar).reverse⟩

/-- JavaScript `s.substring(0, n)`. -/
def strTake (s : String) (n : ℕ) : String :=
  ⟨s.data.take n⟩

/-- JavaScript `s.toUpperCase()` (ASCII fragment). -/
def strUpper (s : String) : String :=
  ⟨s.data.map Char.toUpper⟩

/-- JavaScript `s.toLowerCase()` (ASCII fragment). -/
def strLower (s : String) : String :=
  ⟨s.data.map Char.toLower⟩

/-- JavaScript `s.replace(/,/g, '')`. -/
def stripCommas (s : String) : String :=
  ⟨s.data.filter (fun c => !(c == ','))⟩

/-- JavaScript `s.replace(/\n/g, ' ')`. -/
def newlinesToSpaces (s : String) : String :=
  ⟨s.data.map (fun c => if c = '\n' then ' ' else c)⟩

/-! ### JavaScript `parseFloat` on rationals -/

def digitsVal (ds : List Char) : ℕ :=
  ds.foldl (fun acc c => acc * 10 + (c.toNat - '0'.toNat)) 0

/-- JavaScript `parseFloat`, restricted to finite decimal literals
(optionally signed, with optional fraction and exponent).  `none` models
`NaN`; the non-finite literal `Infinity` lies outside the rational model
and is never produced by the inputs considered here. -/
def parseFloatQ (s : String) : Option ℚ :=
  let cs := s.data.dropWhile isJsSpaceChar
  let signAndRest : ℚ × List Char :=
    match cs with
    | '-' :: t => (-1, t)
    | '+' :: t => (1, t)
    | _ => (1, cs)
  let sign := signAndRest.1
  let cs1 := signAndRest.2
  let intDigits := cs1.takeWhile Char.isDigit
  let cs2 := cs1.dropWhile Char.isDigit
  let fracAndRest : List Char × List Char :=
    match cs2 with
    | '.' :: t => (t.takeWhile Char.isDigit, t.dropWhile Char.isDigit)
    | _ => ([], cs2)
  let fracDigits := fracAndRest.1
  let cs3 := fracAndRest.2
  if intDigits.isEmpty && fracDigits.isEmpty then none
  else
    let mant : ℚ :=
      (digitsVal intDigits : ℚ) + (digitsVal fracDigits : ℚ) / (10 : ℚ) ^ fracDigits.length
    let expVal : ℤ :=
      match cs3 with
      | 'e' :: t | 'E' :: t =>
        let esignAndRest : ℤ × List Char :=
          match t with
          | '-' :: u => (-1, u)
          | '+' :: u => (1, u)
          | _ => (1, t)
        let eds := esignAndRest.2.takeWhile Char.isDigit
        if eds.isEmpty then 0 else esignAndRest.1 * (digitsVal eds : ℤ)
      | _ => 0
    some (sign * mant * (10 : ℚ) ^ expVal)

/-- Decimal rendering of a rational, modelling JavaScript
`Number.prototype.toString` on the values reachable in this development
(integers and terminating decimals). -/
def qToDecimalString (q : ℚ) : String :=
  if q.den = 1 then toString q.num
  else
    match (List.range 30).find? (fun k => (q * (10 : ℚ) ^ (k + 1)).den = 1) with
    | some k =>
      let m := (q * (10 : ℚ) ^ (k + 1)).num
      let sgnStr := if m < 0 then "-" else ""
      let a := m.natAbs
      let p := (10 : ℕ) ^ (k + 1)
      let fracStr := toString (a % p)
      let pad : String := ⟨List.replicate ((k + 1) - fracStr.length) '0'⟩
      sgnStr ++ toString (a / p) ++ "." ++ pad ++ fracStr
    | none => toString q.num ++ ":" ++ toString q.den

/-! ### Dynamic JavaScript values and raw rows -/

/-- A JSON-derived JavaScript value as stored in a raw LLM row. -/
inductive JsVal where
  | null : JsVal
  | str : String → JsVal
  | num : ℚ → JsVal
  | bool : Bool → JsVal
deriving DecidableEq

/-- A raw row: an object from the parsed LLM response, as an association
list in key insertion order.  A missing key (JavaScript `undefined`) is a
failed lookup. -/
def RawRow := List (String × JsVal)

instance : DecidableEq RawRow := by unfold RawRow; infer_instance

/-- JavaScript property access `tx[k]`; `none` is `undefined`. -/
def getVal (tx : RawRow) (k : String) : Option JsVal :=
  (tx.find? (fun kv => kv.1 == k)).map (fun kv => kv.2)

/-- JavaScript truthiness of a possibly-undefined value. -/
def truthy : Option JsVal → Bool
  | none => false
  | some .null => false
  | some (.bool b) => b
  | some (.str s) => !s.isEmpty
  | some (.num q) => !(q == 0)

/-- JavaScript `String(v)` on a defined value. -/
def jsToString : JsVal → String
  | .null => "null"
  | .str s => s
  | .num q => qToDecimalString q
  | .bool b => if b then "true" else "false"

/-- JavaScript `a || b || ''` (value-preserving disjunction). -/
def orChain2 (a b : Option JsVal) : JsVal :=
  if truthy a then a.getD .null
  else if truthy b then b.getD .null
  else .str ""

/-- JavaScript `a ?? b ?? ''` (nullish coalescing). -/
def coalesce2 (a b : Option JsVal) : JsVal :=
  match a with
  | none | some .null =>
    match b with
    | none | some .null => .str ""
    | some v => v
  | some v => v

/-! ### The canonical transaction schema (`normalizeTransactionData` output) -/

inductive TxType where
  | credit : TxType
  | debit : TxType
deriving DecidableEq

def flipType : TxType → TxType
  | .credit => .debit
  | .debit => .credit

/-- A canonical row: the normalized default schema
`{date, description, amount, type, running_balance}` plus the three
provenance flags.  `none` models JavaScript `null` (and, for the numeric
fields, `NaN`). -/
@[ext]
structure Tx where
  date : Option String
  description : Option String
  amount : Option ℚ
  type : Option TxType
  running_balance : Option ℚ
  balanceMismatch : Bool
  typeCorrected : Bool
  invalidStructure : Bool
deriving DecidableEq

/-- Default row used with `List.getD`. -/
def dTx : Tx := ⟨none, none, none, none, none, false, false, false⟩

/-- `isLikelyOpeningBalance` on a cleaned description string. -/
def isLikelyOpeningBalanceStr (description : String) : Bool :=
  !description.isEmpty && strContains (strUpper description) "OPENING BALANCE"

/-- `isLikelyOpeningBalance(description)` from aiProcessor.js. -/
def isLikelyOpeningBalance : Option String → Bool
  | none => false
  | some d => isLikelyOpeningBalanceStr d

/-- `isValidTransaction` from aiProcessor.js (first, normalized-schema
version): the strict validity predicate of the reconciler. -/
def isValidTransaction (tx : Tx) : Bool :=
  let hasDate := match tx.date with
    | some d => !d.isEmpty
    | none => false
  let hasDescription := tx.description.isSome
  let hasAmount := tx.amount.isSome
  let hasType := tx.type.isSome
  let hasRunningBalance := tx.running_balance.isSome
  let isValidCore := hasDate && hasDescription && hasRunningBalance
  let openingOk :=
    isLikelyOpeningBalance tx.description && tx.type == none && tx.amount == some 0
  isValidCore && ((hasAmount && hasType) || openingOk)

/-! ### The reconciler: `validateTransactionBalances` -/

def BALANCE_TOLERANCE : ℚ := 1/10

/-- `prevBalance + amount` for a credit, `prevBalance - amount` for a
debit. -/
def signedExpected (prevBal amount : ℚ) : TxType → ℚ
  | .credit => prevBal + amount
  | .debit => prevBal - amount

/-- One iteration of the validation loop of `validateTransactionBalances`
(aiProcessor.js lines 242-326): the row pushed for input `currentTx` given
the already-processed output list `processed`. -/
def step (processed : List Tx) (currentTx : Tx) : Tx :=
  let cur : Tx := { currentTx with balanceMismatch := false, invalidStructure := false }
  if !(isValidTransaction currentTx) then
    { cur with invalidStructure := true, balanceMismatch := true }
  else
    match processed.reverse.find? isValidTransaction with
    | none => { cur with balanceMismatch := true }
    | some prev =>
      match prev.running_balance, cur.running_balance, cur.amount, cur.type with
      | some prevBal, some currentBal, some amount, some ty =>
        if |currentBal - signedExpected prevBal amount ty| ≤ BALANCE_TOLERANCE then
          { cur with balanceMismatch := false, typeCorrected := false }
        else
          if |currentBal - signedExpected prevBal amount (flipType ty)| ≤ BALANCE_TOLERANCE then
            { cur with balanceMismatch := false, typeCorrected := true,
                       type := some (flipType ty) }
          else
            { cur with balanceMismatch := true, typeCorrected := false }
      | _, _, _, _ =>
        if cur.amount == some 0 && cur.type == none
            && isLikelyOpeningBalance cur.description then
          cur
        else
          { cur with balanceMismatch := true }

/-- The validation loop: fold `step` over the remaining rows, appending
each processed row. -/
def processLoop : List Tx → List Tx → List Tx
  | processed, [] => processed
  | processed, cur :: rest => processLoop (processed ++ [step processed cur]) rest

/-- JavaScript `transactions.findIndex(isValidTransaction)`, as an
optional index. -/
def findFirstValidIdx : List Tx → Option ℕ
  | [] => none
  | tx :: rest =>
    if isValidTransaction tx then some 0
    else (findFirstValidIdx rest).map (· + 1)

/-- `validateTransactionBalances` from aiProcessor.js (lines 209-332): the
balance reconciler. -/
def validateTransactionBalances (transactions : List Tx) : List Tx :=
  match findFirstValidIdx transactions with
  | none =>
    transactions.map fun tx =>
      { tx with balanceMismatch := true, invalidStructure := !(isValidTransaction tx) }
  | some firstValidIndex =>
    let earlyRows :=
      (transactions.take (firstValidIndex + 1)).map fun tx =>
        { tx with balanceMismatch := false, invalidStructure := !(isValidTransaction tx) }
    processLoop earlyRows (transactions.drop (firstValidIndex + 1))

/-! ### The key normalizer: `normalizeTransactionData` -/

/-- Lookup of a non-empty string value at key `k` (the pattern
`typeof tx[k] === 'string' && tx[k].length > 0`). -/
def nonEmptyStrAt (tx : RawRow) (k : String) : Option String :=
  match getVal tx k with
  | some (.str s) => if s.isEmpty then none else some s
  | _ => none

/-- Lookup of any string value at key `k` (the pattern
`typeof tx[k] === 'string'`). -/
def strAt (tx : RawRow) (k : String) : Option String :=
  match getVal tx k with
  | some (.str s) => some s
  | _ => none

/-- Step 3 fallback of `normalizeTransactionData`: parse debit and credit
candidates (comma-stripped), else the opening-balance shape, else nothing. -/
def amountTypeFallback (tx : RawRow) (description : String) : Option ℚ × Option TxType :=
  let debitStr :=
    stripCommas (jsToString (orChain2 (getVal tx "Debit") (getVal tx "Withdrawal (Dr)")))
  let creditStr :=
    stripCommas (jsToString (orChain2 (getVal tx "Credit") (getVal tx "Deposit(Cr)")))
  match parseFloatQ debitStr, parseFloatQ creditStr with
  | some debit, creditRes =>
    if 0 < debit then (some debit, some .debit)
    else
      match creditRes with
      | some credit =>
        if 0 < credit then (some credit, some .credit)
        else if isLikelyOpeningBalanceStr description then (some 0, none)
        else (none, none)
      | none =>
        if isLikelyOpeningBalanceStr description then (some 0, none)
        else (none, none)
  | none, some credit =>
    if 0 < credit then (some credit, some .credit)
    else if isLikelyOpeningBalanceStr description then (some 0, none)
    else (none, none)
  | none, none =>
    if isLikelyOpeningBalanceStr description then (some 0, none)
    else (none, none)

/-- The body of the `normalizeTransactionData` loop for one raw row
(aiProcessor.js lines 78-168): `some` is a pushed canonical row, `none` a
skipped row. -/
def normalizeOne (tx : RawRow) : Option Tx :=
  let date : Option String :=
    match nonEmptyStrAt tx "date" with
    | some d => some d
    | none =>
      match nonEmptyStrAt tx "Transaction Date" with
      | some d => some d
      | none =>
        match nonEmptyStrAt tx "Value Date" with
        | some d => some d
        | none => nonEmptyStrAt tx "Date"
  let desc0 : String :=
    match strAt tx "description" with
    | some s => s
    | none =>
      match strAt tx "Transaction Remarks" with
      | some s => s
      | none =>
        match strAt tx "Narration" with
        | some s => s
        | none =>
          match strAt tx "Transaction details" with
          | some s => s
          | none => ""
  let description : String :=
    if desc0.isEmpty then desc0 else jsTrim (newlinesToSpaces desc0)
  let amountType : Option ℚ × Option TxType :=
    match getVal tx "amount", getVal tx "type" with
    | some (.num q), some (.str t) =>
      if t = "credit" then (some |q|, some .credit)
      else if t = "debit" then (some |q|, some .debit)
      else amountTypeFallback tx description
    | _, _ => amountTypeFallback tx description
  let balanceStr :=
    stripCommas (jsToString (coalesce2 (getVal tx "running_balance") (getVal tx "Balance")))
  let runningBalance : Option ℚ := parseFloatQ balanceStr
  if date.isSome && runningBalance.isSome
      && (amountType.1.isSome || isLikelyOpeningBalanceStr description) then
    if amountType.1.isNone && !(isLikelyOpeningBalanceStr description) then none
    else
      some { date := date
             description := some description
             amount := amountType.1
             type := amountType.2
             running_balance := runningBalance
             balanceMismatch := truthy (getVal tx "balanceMismatch")
             typeCorrected := truthy (getVal tx "typeCorrected")
             invalidStructure := truthy (getVal tx "invalidStructure") }
  else none

/-- `normalizeTransactionData` from aiProcessor.js (lines 71-172). -/
def normalizeTransactionData (rawTransactions : List RawRow) : List Tx :=
  rawTransactions.filterMap normalizeOne

/-! ### The feedback diff: `compareResults` (db.js lines 44-91) -/

structure CellChange where
  rowIndex : ℕ
  header : String
  oldValue : JsVal
  newValue : JsVal
deriving DecidableEq

structure Analysis where
  rowsAdded : ℕ
  rowsDeleted : ℕ
  rowsModified : ℕ
  cellChanges : List CellChange
  fieldChangeCounts : List (String × ℕ)
deriving DecidableEq

/-- JavaScript `String(v ?? '')`: the textual representation used by the
diff, with `null`/`undefined` rendered as the empty string. -/
def jsDisp : Option JsVal → String
  | none => ""
  | some .null => ""
  | some (.str s) => s
  | some (.num q) => qToDecimalString q
  | some (.bool b) => if b then "true" else "false"

/-- `v ?? null`. -/
def jsValOrNull : Option JsVal → JsVal
  | none => .null
  | some v => v

/-- The cell changes recorded for one positional row pair, in header
order. -/
def compareRow (i : ℕ) (headers : List String) (a b : RawRow) : List CellChange :=
  headers.filterMap fun h =>
    if jsDisp (getVal a h) ≠ jsDisp (getVal b h) then
      some ⟨i, h, jsValOrNull (getVal a h), jsValOrNull (getVal b h)⟩
    else none

/-- Per-row change lists for the positionally paired rows starting at
index `i`. -/
def rowChangeLists (headers : List String) : ℕ → List (RawRow × RawRow) → List (List CellChange)
  | _, [] => []
  | i, (a, b) :: rest => compareRow i headers a b :: rowChangeLists headers (i + 1) rest

/-- Increment the count of `h` in an insertion-ordered association list
(JavaScript `counts[h] = (counts[h] || 0) + 1`). -/
def bumpCount (counts : List (String × ℕ)) (h : String) : List (String × ℕ) :=
  match counts with
  | [] => [(h, 1)]
  | (k, n) :: rest => if k = h then (k, n + 1) :: rest else (k, n) :: bumpCount rest h

/-- `compareResults` from db.js: positional element-wise diff over
`min(|initialData|, |correctedData|)` rows, with headers taken from the
first row of `initialData` (else of `correctedData`). -/
def compareResults (initialData correctedData : List RawRow) : Analysis :=
  let headers : List String :=
    match initialData with
    | first :: _ => first.map (fun kv => kv.1)
    | [] =>
      match correctedData with
      | first :: _ => first.map (fun kv => kv.1)
      | [] => []
  let changeLists := rowChangeLists headers 0 (initialData.zip correctedData)
  let changes := changeLists.flatten
  { rowsAdded := correctedData.length - initialData.length
    rowsDeleted := initialData.length - correctedData.length
    rowsModified := (changeLists.filter (fun cs => !cs.isEmpty)).length
    cellChanges := changes
    fieldChangeCounts := changes.foldl (fun acc c => bumpCount acc c.header) [] }

/-! ### The artifact download endpoint (server.js lines 518-559) -/

/-- The guard of `GET /api/download/:downloadId`: the request proceeds to
the file lookup iff the id is truthy, contains no `..`, and ends in
`.csv`. -/
def downloadIdAccepted (id : String) : Bool :=
  !(id.isEmpty || strContains id ".." || !(strEndsWith id ".csv"))

/-- A character of the class `[A-Za-z0-9_.\-]`. -/
def csvClassChar (c : Char) : Bool :=
  c.isAlphanum || c == '_' || c == '.' || c == '-'

/-- Modelled from the spec: the artifact-id pattern `[A-Za-z0-9_.\-]+\.csv`
anchored at both ends, i.e. a non-empty class-only stem followed by the
literal suffix `.csv`. -/
def specCsvPattern (id : String) : Bool :=
  let stem := id.data.take (id.data.length - 4)
  strEndsWith id ".csv" && !stem.isEmpty && stem.all csvClassChar

/-! ### The bank classifier: `identifyBankWithAI` (aiProcessor.js 339-388) -/

/-- The fixed identification prompt with the truncated page text
interpolated. -/
def mkIdentPrompt (truncatedText : String) : String :=
  "\n        Analyze the following text snippet from a bank statement.\n" ++
  "        Identify the primary bank name mentioned.\n" ++
  "        Respond with ONLY the common abbreviation or name of the bank " ++
  "(e.g., \"ICICI\", \"HDFC\", \"SBI\", \"Bank of America\", \"Chase\").\n" ++
  "        If you are unsure, respond with \"Unknown\".\n" ++
  "        Do not include any explanations or introductory text.\n\n" ++
  "        Text Snippet:\n        --- START ---\n        " ++
  truncatedText ++
  "\n        --- END ---\n    "

/-- `identifyBankWithAI`, instrumented with the list of prompts submitted
to the LLM.  `llm` is the text-completion service: `Except.error` models a
thrown transport error, `Except.ok` the response text.  The first result
component is the returned bank identifier (`none` for JavaScript `null`),
the second the LLM requests issued. -/
def identifyBankWithAI (llm : String → Except Unit String)
    (textContent : Option String) : Option String × List String :=
  match textContent with
  | none => (none, [])
  | some t =>
    if t.isEmpty then (none, [])
    else if (jsTrim t).data.length < 50 then (none, [])
    else
      let truncatedText := strTake t 2000
      let prompt := mkIdentPrompt truncatedText
      match llm prompt with
      | .error _ => (none, [prompt])
      | .ok resp =>
        let bankName := jsTrim resp
        (if bankName.isEmpty || strLower bankName = "unknown"
            || 50 < bankName.data.length then none
         else if strContains (strUpper bankName) "ICICI" then some "ICICI"
         else if strContains (strUpper bankName) "HDFC" then some "HDFC"
         else if strContains (strUpper bankName) "SBI"
            || strContains (strUpper bankName) "STATE BANK" then some "SBI"
         else if strContains (strUpper bankName) "EQUITAS" then some "EQUITAS"
         else some bankName, [prompt])

/-- Clearing the `typeCorrected` flag; used to compare reconciler outputs
up to that flag. -/
def clearTC (tx : Tx) : Tx := { tx with typeCorrected := false }

/-- The raw-row keys that `normalizeTransactionData` inspects. -/
def recognizedKeys : List String :=
  ["date", "Transaction Date", "Value Date", "Date",
   "description", "Transaction Remarks", "Narration", "Transaction details",
   "amount", "type", "Debit", "Withdrawal (Dr)", "Credit", "Deposit(Cr)",
   "running_balance", "Balance",
   "balanceMismatch", "typeCorrected", "invalidStructure"]

/-! ### Concrete rows used in the scenario checks -/

/-- S1 opening row: balance 1000. -/
def openRow : Tx := ⟨some "01/04/2024", some "OPENING BALANCE", some 0, none, some 1000, false, false, false⟩

/-- A 500 credit reaching balance 1500 (valid against `openRow`). -/
def plainRow : Tx := ⟨some "01/04/2024", some "Salary", some 500, some .credit, some 1500, false, false, false⟩

/-- S2 row: arrives typed debit but the balance arithmetic says credit. -/
def flipRow : Tx := ⟨some "02/04/2024", some "Salary", some 500, some .debit, some 1500, false, false, false⟩

/-- A valid credit row with balance 1000. -/
def firstValidRow : Tx := ⟨some "01/04/2024", some "Salary", some 500, some .credit, some 1000, false, false, false⟩

/-- An opening-balance row appearing after other rows, with a jumped
balance. -/
def lateOpenRow : Tx := ⟨some "02/04/2024", some "OPENING BALANCE", some 0, none, some 5000, false, false, false⟩

/-- A structurally invalid row (no date). -/
def invalidRow : Tx := ⟨none, some "junk", some 5, some .credit, some 7, false, false, false⟩

/-- A structurally invalid row (null description). -/
def invalidRow2 : Tx := ⟨some "03/04/2024", none, some 1, some .debit, some 2, false, false, false⟩

/-- A valid row whose input `typeCorrected` flag is already set. -/
def markedRow : Tx := ⟨some "01/04/2024", some "a", some 5, some .credit, some 100, false, true, false⟩

/-- A zero-amount row: both type orientations satisfy the tolerance. -/
def zeroAmountRow : Tx := ⟨some "02/04/2024", some "z", some 0, some .credit, some 1500, false, false, false⟩

/-- S5 raw row. -/
def s5RawRow : RawRow :=
  [("Transaction Date", .str "10/Apr/2024"), ("Narration", .str "X"),
   ("Debit", .str "1,500.50"), ("Balance", .str "25,000.75")]

/-- S5 raw row with an embedded newline inside the date key. -/
def s5DirtyRawRow : RawRow :=
  [("Transaction\nDate", .str "10/Apr/2024"), ("Narration", .str "X"),
   ("Debit", .str "1,500.50"), ("Balance", .str "25,000.75")]

/-- The canonical row S5 normalizes to. -/
def s5NormalizedRow : Tx :=
  ⟨some "10/Apr/2024", some "X", some (3001/2 : ℚ), some .debit,
   some (100003/4 : ℚ), false, false, false⟩

/-- S6 original row. -/
def s6OriginalRow : RawRow :=
  [("date", .str "01/04/2024"), ("description", .str "A"), ("amount", .num 10),
   ("type", .str "debit"), ("running_balance", .num 90)]

/-- S6 corrected row (description edited). -/
def s6CorrectedRow : RawRow :=
  [("date", .str "01/04/2024"), ("description", .str "A2"), ("amount", .num 10),
   ("type", .str "debit"), ("running_balance", .num 90)]

/-- A page text longer than 50 characters (for the classifier guard). -/
def longPageText : String := String.mk (List.replicate 60 'a')

/-! ## Lemmas: list access -/

theorem getD_take_lt : ∀ (l : List Tx) (n j : ℕ), j < n →
    (l.take n).getD j dTx = l.getD j dTx := by
  intro l
  induction l with
  | nil => intro n j _; simp
  | cons x xs ih =>
    intro n j hj
    match n, j with
    | n + 1, 0 => rfl
    | n + 1, j + 1 => simpa using ih n j (by omega)

theorem getD_drop : ∀ (l : List Tx) (n j : ℕ),
    (l.drop n).getD j dTx = l.getD (n + j) dTx := by
  intro l
  induction l with
  | nil => intro n j; simp
  | cons x xs ih =>
    intro n j
    match n with
    | 0 => simp
    | n + 1 =>
      rw [Nat.succ_add]
      exact ih n j

theorem getD_append_lt : ∀ (a b : List Tx) (j : ℕ), j < a.length →
    (a ++ b).getD j dTx = a.getD j dTx := by
  intro a
  induction a with
  | nil => intro b j hj; simp at hj
  | cons x xs ih =>
    intro b j hj
    match j with
    | 0 => rfl
    | j + 1 => exact ih b j (by simpa using hj)

theorem getD_append_len : ∀ (a : List Tx) (x : Tx),
    (a ++ [x]).getD a.length dTx = x := by
  intro a
  induction a with
  | nil => intro x; rfl
  | cons y ys ih => intro x; exact ih x

theorem getD_map_lt (f : Tx → Tx) : ∀ (l : List Tx) (j : ℕ), j < l.length →
    (l.map f).getD j dTx = f (l.getD j dTx) := by
  intro l
  induction l with
  | nil => intro j hj; simp at hj
  | cons x xs ih =>
    intro j hj
    match j with
    | 0 => rfl
    | j + 1 => simpa using ih j (by simpa using hj)

theorem getD_mem : ∀ (l : List Tx) (j : ℕ), j < l.length → l.getD j dTx ∈ l := by
  intro l
  induction l with
  | nil => intro j hj; simp at hj
  | cons x xs ih =>
    intro j hj
    match j with
    | 0 => exact List.mem_cons_self x xs
    | j + 1 => exact List.mem_cons_of_mem x (ih j (by simpa using hj))

/-! ## Lemmas: the validity predicate -/

theorem isValid_setFlags (tx : Tx) (b c d : Bool) :
    isValidTransaction
      { tx with balanceMismatch := b, typeCorrected := c, invalidStructure := d }
      = isValidTransaction tx := rfl

theorem isValid_clearTC (tx : Tx) :
    isValidTransaction (clearTC tx) = isValidTransaction tx := rfl

theorem isValid_running_balance {tx : Tx} (h : isValidTransaction tx = true) :
    ∃ b, tx.running_balance = some b := by
  unfold isValidTransaction at h
  simp only [Bool.and_eq_true, Bool.or_eq_true, beq_iff_eq] at h
  exact Option.isSome_iff_exists.mp h.1.2

theorem isValid_amount_of_type_some {tx : Tx} {ty : TxType}
    (h : isValidTransaction tx = true) (hty : tx.type = some ty) :
    ∃ a, tx.amount = some a := by
  unfold isValidTransaction at h
  simp only [Bool.and_eq_true, Bool.or_eq_true, beq_iff_eq] at h
  rcases h with ⟨-, h | h⟩
  · exact Option.isSome_iff_exists.mp h.1
  · rw [hty] at h
    simp at h

theorem isValid_opening_shape {tx : Tx}
    (h : isValidTransaction tx = true) (hty : tx.type = none) :
    tx.amount = some 0 ∧ isLikelyOpeningBalance tx.description = true := by
  unfold isValidTransaction at h
  simp only [Bool.and_eq_true, Bool.or_eq_true, beq_iff_eq] at h
  rcases h with ⟨-, h | h⟩
  · rw [hty] at h
    simp at h
  · exact ⟨h.2, h.1.1⟩

theorem isValid_type_update {tx : Tx} {ty ty2 : TxType} (hty : tx.type = some ty)
    (b c d : Bool) :
    isValidTransaction
      { tx with type := some ty2, balanceMismatch := b, typeCorrected := c,
                invalidStructure := d }
      = isValidTransaction tx := by
  unfold isValidTransaction
  simp [hty]

/-! ## Lemmas: `step` -/

theorem step_invalid (acc : List Tx) (cur : Tx)
    (hv : isValidTransaction cur = false) :
    step acc cur = { cur with balanceMismatch := true, invalidStructure := true } := by
  simp [step, hv]

theorem step_noPrev (acc : List Tx) (cur : Tx)
    (hv : isValidTransaction cur = true)
    (hfind : acc.reverse.find? isValidTransaction = none) :
    step acc cur = { cur with balanceMismatch := true, invalidStructure := false } := by
  simp [step, hv, hfind]

theorem step_opening (acc : List Tx) (cur prev : Tx)
    (hv : isValidTransaction cur = true)
    (hfind : acc.reverse.find? isValidTransaction = some prev)
    (hty : cur.type = none) :
    step acc cur = { cur with balanceMismatch := false, invalidStructure := false } := by
  obtain ⟨ha0, hop⟩ := isValid_opening_shape hv hty
  obtain ⟨b, hb⟩ := isValid_running_balance hv
  simp [step, hv, hfind, hty, ha0, hop, hb]

theorem step_arith (acc : List Tx) (cur prev : Tx) (prevBal bal amt : ℚ) (ty : TxType)
    (hv : isValidTransaction cur = true)
    (hfind : acc.reverse.find? isValidTransaction = some prev)
    (hpb : prev.running_balance = some prevBal)
    (hcb : cur.running_balance = some bal)
    (hamt : cur.amount = some amt)
    (hty : cur.type = some ty) :
    step acc cur =
      if |bal - signedExpected prevBal amt ty| ≤ BALANCE_TOLERANCE then
        { cur with balanceMismatch := false, invalidStructure := false,
                   typeCorrected := false }
      else if |bal - signedExpected prevBal amt (flipType ty)| ≤ BALANCE_TOLERANCE then
        { cur with balanceMismatch := false, invalidStructure := false,
                   typeCorrected := true, type := some (flipType ty) }
      else
        { cur with balanceMismatch := true, invalidStructure := false,
                   typeCorrected := false } := by
  simp [step, hv, hfind, hpb, hcb, hamt, hty]

theorem isValid_step (acc : List Tx) (cur : Tx) :
    isValidTransaction (step acc cur) = isValidTransaction cur := by
  rcases hv : isValidTransaction cur with _ | _
  · rw [step_invalid acc cur hv, isValid_setFlags, hv]
  · rcases hfind : acc.reverse.find? isValidTransaction with _ | prev
    · rw [step_noPrev acc cur hv hfind, isValid_setFlags, hv]
    · rcases hty : cur.type with _ | ty
      · rw [step_opening acc cur prev hv hfind hty, isValid_setFlags, hv]
      · obtain ⟨pb, hpb⟩ := isValid_running_balance (List.find?_some hfind)
        obtain ⟨b, hb⟩ := isValid_running_balance hv
        obtain ⟨a, ha⟩ := isValid_amount_of_type_some hv hty
        rw [step_arith acc cur prev pb b a ty hv hfind hpb hb ha hty]
        split
        · rw [isValid_setFlags, hv]
        · split
          · rw [isValid_type_update hty, hv]
          · rw [isValid_setFlags, hv]

/-! ## Lemmas: the validation loop -/

theorem processLoop_length : ∀ (rest acc : List Tx),
    (processLoop acc rest).length = acc.length + rest.length := by
  intro rest
  induction rest with
  | nil => intro acc; simp [processLoop]
  | cons cur rest ih =>
    intro acc
    show (processLoop (acc ++ [step acc cur]) rest).length = _
    rw [ih]
    simp
    omega

theorem processLoop_take : ∀ (rest acc : List Tx),
    (processLoop acc rest).take acc.length = acc := by
  intro rest
  induction rest with
  | nil => intro acc; simp [processLoop]
  | cons cur rest ih =>
    intro acc
    show (processLoop (acc ++ [step acc cur]) rest).take acc.length = acc
    have h1 : (processLoop (acc ++ [step acc cur]) rest).take acc.length
        = ((processLoop (acc ++ [step acc cur]) rest).take
            (acc ++ [step acc cur]).length).take acc.length := by
      rw [List.take_take]
      congr 1
      simp
    rw [h1, ih (acc ++ [step acc cur])]
    simp

theorem processLoop_getD_left : ∀ (rest acc : List Tx) (j : ℕ), j < acc.length →
    (processLoop acc rest).getD j dTx = acc.getD j dTx := by
  intro rest acc j hj
  have h := processLoop_take rest acc
  calc (processLoop acc rest).getD j dTx
      = ((processLoop acc rest).take acc.length).getD j dTx :=
        (getD_take_lt _ _ _ hj).symm
    _ = acc.getD j dTx := by rw [h]

theorem processLoop_getD_step : ∀ (rest acc : List Tx) (i : ℕ), i < rest.length →
    (processLoop acc rest).getD (acc.length + i) dTx
      = step ((processLoop acc rest).take (acc.length + i)) (rest.getD i dTx) := by
  intro rest
  induction rest with
  | nil => intro acc i hi; simp at hi
  | cons cur rest ih =>
    intro acc i hi
    match i with
    | 0 =>
      show (processLoop (acc ++ [step acc cur]) rest).getD (acc.length + 0) dTx
        = step ((processLoop (acc ++ [step acc cur]) rest).take (acc.length + 0)) cur
      have hlen : acc.length < (acc ++ [step acc cur]).length := by simp
      have hget : (processLoop (acc ++ [step acc cur]) rest).getD (acc.length + 0) dTx
          = step acc cur := by
        rw [Nat.add_zero, processLoop_getD_left rest _ _ hlen, getD_append_len]
      have htake : (processLoop (acc ++ [step acc cur]) rest).take (acc.length + 0) = acc := by
        rw [Nat.add_zero]
        have h1 : (processLoop (acc ++ [step acc cur]) rest).take acc.length
            = ((processLoop (acc ++ [step acc cur]) rest).take
                (acc ++ [step acc cur]).length).take acc.length := by
          rw [List.take_take]
          congr 1
          simp
        rw [h1, processLoop_take rest (acc ++ [step acc cur])]
        simp
      rw [hget, htake]
    | i + 1 =>
      show (processLoop (acc ++ [step acc cur]) rest).getD (acc.length + (i + 1)) dTx
        = step ((processLoop (acc ++ [step acc cur]) rest).take (acc.length + (i + 1)))
            (rest.getD i dTx)
      have harith : acc.length + (i + 1) = (acc ++ [step acc cur]).length + i := by
        simp
        omega
      rw [harith]
      exact ih (acc ++ [step acc cur]) i (by simpa using hi)

/-! ## Lemmas: `findFirstValidIdx` -/

theorem ffvi_some_spec : ∀ (l : List Tx) (k : ℕ), findFirstValidIdx l = some k →
    k < l.length ∧ isValidTransaction (l.getD k dTx) = true ∧
      ∀ j, j < k → isValidTransaction (l.getD j dTx) = false := by
  intro l
  induction l with
  | nil => intro k h; simp [findFirstValidIdx] at h
  | cons tx rest ih =>
    intro k h
    unfold findFirstValidIdx at h
    rcases hv : isValidTransaction tx with _ | _
    · rw [hv] at h
      simp only [if_false, Option.map_eq_some', Bool.false_eq_true] at h
      rcases h with ⟨m, hm, rfl⟩
      obtain ⟨h1, h2, h3⟩ := ih m hm
      refine ⟨by simpa using h1, h2, ?_⟩
      intro j hj
      match j with
      | 0 => exact hv
      | j + 1 => exact h3 j (by omega)
    · rw [hv] at h
      simp at h
      subst h
      exact ⟨by simp, hv, by omega⟩

theorem ffvi_none_spec : ∀ (l : List Tx), findFirstValidIdx l = none →
    ∀ j, j < l.length → isValidTransaction (l.getD j dTx) = false := by
  intro l
  induction l with
  | nil => intro _ j hj; simp at hj
  | cons tx rest ih =>
    intro h j hj
    unfold findFirstValidIdx at h
    rcases hv : isValidTransaction tx with _ | _
    · rw [hv] at h
      simp only [if_false, Option.map_eq_none', Bool.false_eq_true] at h
      match j with
      | 0 => exact hv
      | j + 1 => exact ih h j (by simpa using hj)
    · rw [hv] at h
      simp at h

theorem ffvi_congr : ∀ (a b : List Tx), a.length = b.length →
    (∀ j, j < a.length →
      isValidTransaction (a.getD j dTx) = isValidTransaction (b.getD j dTx)) →
    findFirstValidIdx a = findFirstValidIdx b := by
  intro a
  induction a with
  | nil =>
    intro b hlen _
    have : b = [] := List.eq_nil_of_length_eq_zero hlen.symm
    rw [this]
  | cons x xs ih =>
    intro b hlen hpt
    match b with
    | [] => simp at hlen
    | y :: ys =>
      have h0 : isValidTransaction x = isValidTransaction y := hpt 0 (by simp)
      unfold findFirstValidIdx
      rw [h0]
      rcases isValidTransaction y with _ | _
      · simp only [if_false, Bool.false_eq_true]
        rw [ih ys (by simpa using hlen) (fun j hj => hpt (j + 1) (by simpa using hj))]
      · simp

/-! ## Lemmas: characterization of `validateTransactionBalances` -/

theorem validate_length (l : List Tx) :
    (validateTransactionBalances l).length = l.length := by
  unfold validateTransactionBalances
  rcases hk : findFirstValidIdx l with _ | k
  · simp
  · obtain ⟨hk1, -, -⟩ := ffvi_some_spec l k hk
    simp only [processLoop_length, List.length_map, List.length_take, List.length_drop]
    omega

theorem validate_getD_none (l : List Tx) (j : ℕ)
    (hk : findFirstValidIdx l = none) (hj : j < l.length) :
    (validateTransactionBalances l).getD j dTx
      = { l.getD j dTx with balanceMismatch := true,
                            invalidStructure := !(isValidTransaction (l.getD j dTx)) } := by
  unfold validateTransactionBalances
  rw [hk]
  exact getD_map_lt _ l j hj

theorem validate_getD_early (l : List Tx) (k j : ℕ)
    (hk : findFirstValidIdx l = some k) (hj : j ≤ k) :
    (validateTransactionBalances l).getD j dTx
      = { l.getD j dTx with balanceMismatch := false,
                            invalidStructure := !(isValidTransaction (l.getD j dTx)) } := by
  obtain ⟨hk1, -, -⟩ := ffvi_some_spec l k hk
  unfold validateTransactionBalances
  rw [hk]
  have hjlen : j < ((l.take (k + 1)).map fun tx =>
      { tx with balanceMismatch := false,
                invalidStructure := !(isValidTransaction tx) }).length := by
    simp
    omega
  rw [processLoop_getD_left _ _ j hjlen,
    getD_map_lt _ _ j (by simp; omega), getD_take_lt l (k + 1) j (by omega)]

theorem validate_getD_loop (l : List Tx) (k i : ℕ)
    (hk : findFirstValidIdx l = some k) (hki : k < i) (hi : i < l.length) :
    (validateTransactionBalances l).getD i dTx
      = step ((validateTransactionBalances l).take i) (l.getD i dTx) := by
  obtain ⟨hk1, -, -⟩ := ffvi_some_spec l k hk
  have hstep := processLoop_getD_step (l.drop (k + 1))
    ((l.take (k + 1)).map fun tx =>
      { tx with balanceMismatch := false,
                invalidStructure := !(isValidTransaction tx) })
    (i - (k + 1)) (by simp; omega)
  have hlen : ((l.take (k + 1)).map fun tx =>
      { tx with balanceMismatch := false,
                invalidStructure := !(isValidTransaction tx) }).length = k + 1 := by
    simp
    omega
  rw [hlen] at hstep
  have harith : k + 1 + (i - (k + 1)) = i := by omega
  rw [harith] at hstep
  have hrest : (l.drop (k + 1)).getD (i - (k + 1)) dTx = l.getD i dTx := by
    rw [getD_drop, harith]
  rw [hrest] at hstep
  show (validateTransactionBalances l).getD i dTx
    = step ((validateTransactionBalances l).take i) (l.getD i dTx)
  unfold validateTransactionBalances
  rw [hk]
  exact hstep

theorem validate_isValid_getD (l : List Tx) (j : ℕ) (hj : j < l.length) :
    isValidTransaction ((validateTransactionBalances l).getD j dTx)
      = isValidTransaction (l.getD j dTx) := by
  rcases hk : findFirstValidIdx l with _ | k
  · rw [validate_getD_none l j hk hj, isValid_setFlags]
  · rcases Nat.lt_or_ge k j with hkj | hkj
    · rw [validate_getD_loop l k j hk hkj hj, isValid_step]
    · rw [validate_getD_early l k j hk hkj, isValid_setFlags]

/-! ## Lemmas: last valid element of a processed run -/

theorem find?_some_of_valid_mem {l : List Tx} {x : Tx}
    (hx : x ∈ l) (hvx : isValidTransaction x = true) :
    ∃ prev, l.reverse.find? isValidTransaction = some prev := by
  rcases hfind : l.reverse.find? isValidTransaction with _ | prev
  · rw [List.find?_eq_none] at hfind
    exact absurd hvx (by simpa using hfind x (List.mem_reverse.mpr hx))
  · exact ⟨prev, rfl⟩

theorem reverseFind_some_spec : ∀ (l : List Tx) (x : Tx),
    l.reverse.find? isValidTransaction = some x →
    ∃ j, j < l.length ∧ l.getD j dTx = x ∧ isValidTransaction x = true ∧
      ∀ q, j < q → q < l.length → isValidTransaction (l.getD q dTx) = false := by
  intro l
  induction l using List.reverseRecOn with
  | nil => intro x h; simp at h
  | append_singleton as a ih =>
    intro x h
    rw [List.reverse_append, List.reverse_singleton, List.singleton_append,
      List.find?_cons] at h
    rcases hv : isValidTransaction a with _ | _
    · rw [hv] at h
      simp only [cond_false] at h
      obtain ⟨j, hj, hget, hvx, hq⟩ := ih x h
      refine ⟨j, by simp; omega, ?_, hvx, ?_⟩
      · rw [getD_append_lt as [a] j hj]
        exact hget
      · intro q hjq hq2
        simp only [List.length_append, List.length_singleton] at hq2
        rcases Nat.lt_or_ge q as.length with hcase | hcase
        · rw [getD_append_lt as [a] q hcase]
          exact hq q hjq hcase
        · have : q = as.length := by omega
          rw [this, getD_append_len]
          exact hv
    · rw [hv] at h
      simp only [cond_true, Option.some.injEq] at h
      subst h
      refine ⟨as.length, by simp, getD_append_len as a, hv, ?_⟩
      intro q hjq hq2
      simp only [List.length_append, List.length_singleton] at hq2
      omega

/-! ## Lemmas: re-running the reconciler -/

theorem step_congr (a b : List Tx) (h : a.map clearTC = b.map clearTC) (cur : Tx) :
    step a cur = step b cur := by
  have hrev : a.reverse.map clearTC = b.reverse.map clearTC := by
    have h2 := congrArg List.reverse h
    simpa [List.map_reverse] using h2
  have hfind : (a.reverse.find? isValidTransaction).map clearTC
      = (b.reverse.find? isValidTransaction).map clearTC := by
    have h1 : (a.reverse.map clearTC).find? isValidTransaction
        = (b.reverse.map clearTC).find? isValidTransaction := by rw [hrev]
    rw [List.find?_map, List.find?_map] at h1
    have hcomp : (isValidTransaction ∘ clearTC) = isValidTransaction :=
      funext isValid_clearTC
    rwa [hcomp] at h1
  rcases ha : a.reverse.find? isValidTransaction with _ | pa
    <;> rcases hb : b.reverse.find? isValidTransaction with _ | pb
  · simp only [step, ha, hb]
  · rw [ha, hb] at hfind
    simp at hfind
  · rw [ha, hb] at hfind
    simp at hfind
  · rw [ha, hb] at hfind
    simp only [Option.map_some', Option.some.injEq] at hfind
    have hrb0 := congrArg Tx.running_balance hfind
    have hrb : pa.running_balance = pb.running_balance := hrb0
    simp only [step, ha, hb, hrb]

theorem step_idem (acc : List Tx) (cur : Tx) :
    clearTC (step acc (step acc cur)) = clearTC (step acc cur) := by
  rcases hv : isValidTransaction cur with _ | _
  · rw [step_invalid acc cur hv]
    have hv2 : isValidTransaction { cur with balanceMismatch := true, invalidStructure := true } = false := by
      rw [isValid_setFlags cur true cur.typeCorrected true]
      exact hv
    rw [step_invalid acc _ hv2]
  · rcases hfind : acc.reverse.find? isValidTransaction with _ | prev
    · rw [step_noPrev acc cur hv hfind]
      have hv2 : isValidTransaction { cur with balanceMismatch := true, invalidStructure := false } = true := by
        rw [isValid_setFlags cur true cur.typeCorrected false]
        exact hv
      rw [step_noPrev acc _ hv2 hfind]
    · have hvp := List.find?_some hfind
      obtain ⟨pb, hpb⟩ := isValid_running_balance hvp
      obtain ⟨bal, hb⟩ := isValid_running_balance hv
      rcases hty : cur.type with _ | ty
      · rw [step_opening acc cur prev hv hfind hty]
        have hv2 : isValidTransaction { cur with balanceMismatch := false, invalidStructure := false } = true := by
          rw [isValid_setFlags cur false cur.typeCorrected false]
          exact hv
        have hty2 : ({ cur with balanceMismatch := false, invalidStructure := false } : Tx).type = none := hty
        rw [step_opening acc _ prev hv2 hfind hty2]
      · obtain ⟨amt, hamt⟩ := isValid_amount_of_type_some hv hty
        rw [step_arith acc cur prev pb bal amt ty hv hfind hpb hb hamt hty]
        by_cases h1 : |bal - signedExpected pb amt ty| ≤ BALANCE_TOLERANCE
        · rw [if_pos h1]
          have hv2 : isValidTransaction { cur with balanceMismatch := false, invalidStructure := false, typeCorrected := false } = true := by
            rw [isValid_setFlags cur false false false]
            exact hv
          have hb2 : ({ cur with balanceMismatch := false, invalidStructure := false, typeCorrected := false } : Tx).running_balance = some bal := hb
          have hamt2 : ({ cur with balanceMismatch := false, invalidStructure := false, typeCorrected := false } : Tx).amount = some amt := hamt
          have hty2 : ({ cur with balanceMismatch := false, invalidStructure := false, typeCorrected := false } : Tx).type = some ty := hty
          rw [step_arith acc _ prev pb bal amt ty hv2 hfind hpb hb2 hamt2 hty2]
          rw [if_pos h1]
        · rw [if_neg h1]
          by_cases h2 : |bal - signedExpected pb amt (flipType ty)| ≤ BALANCE_TOLERANCE
          · rw [if_pos h2]
            have hv2 : isValidTransaction { cur with balanceMismatch := false, invalidStructure := false, typeCorrected := true, type := some (flipType ty) } = true := by
              rw [isValid_type_update hty]
              exact hv
            have hb2 : ({ cur with balanceMismatch := false, invalidStructure := false, typeCorrected := true, type := some (flipType ty) } : Tx).running_balance = some bal := hb
            have hamt2 : ({ cur with balanceMismatch := false, invalidStructure := false, typeCorrected := true, type := some (flipType ty) } : Tx).amount = some amt := hamt
            have hty2 : ({ cur with balanceMismatch := false, invalidStructure := false, typeCorrected := true, type := some (flipType ty) } : Tx).type = some (flipType ty) := rfl
            rw [step_arith acc _ prev pb bal amt (flipType ty) hv2 hfind hpb hb2 hamt2 hty2]
            rw [if_pos h2]
            rfl
          · rw [if_neg h2]
            have hv2 : isValidTransaction { cur with balanceMismatch := true, invalidStructure := false, typeCorrected := false } = true := by
              rw [isValid_setFlags cur true false false]
              exact hv
            have hb2 : ({ cur with balanceMismatch := true, invalidStructure := false, typeCorrected := false } : Tx).running_balance = some bal := hb
            have hamt2 : ({ cur with balanceMismatch := true, invalidStructure := false, typeCorrected := false } : Tx).amount = some amt := hamt
            have hty2 : ({ cur with balanceMismatch := true, invalidStructure := false, typeCorrected := false } : Tx).type = some ty := hty
            rw [step_arith acc _ prev pb bal amt ty hv2 hfind hpb hb2 hamt2 hty2]
            rw [if_neg h1, if_neg h2]

theorem get_eq_getD : ∀ (l : List Tx) (n : ℕ) (h : n < l.length),
    l.get ⟨n, h⟩ = l.getD n dTx := by
  intro l
  induction l with
  | nil => intro n h; simp at h
  | cons x xs ih =>
    intro n h
    match n with
    | 0 => rfl
    | n + 1 => exact ih n (by simpa using h)

theorem map_clearTC_ext (A B : List Tx) (hlen : A.length = B.length)
    (h : ∀ n, n < A.length → clearTC (A.getD n dTx) = clearTC (B.getD n dTx)) :
    A.map clearTC = B.map clearTC := by
  apply List.ext_get (by simp [hlen])
  intro n h1 h2
  have hn : n < A.length := by simpa using h1
  have hn2 : n < B.length := by simpa using h2
  rw [get_eq_getD _ _ h1, get_eq_getD _ _ h2, getD_map_lt clearTC A n hn,
    getD_map_lt clearTC B n hn2, h n hn]

theorem validate_twice_clearTC_getD (l : List Tx) : ∀ i, i < l.length →
    clearTC ((validateTransactionBalances (validateTransactionBalances l)).getD i dTx)
      = clearTC ((validateTransactionBalances l).getD i dTx) := by
  have hlen := validate_length l
  have hffvi : findFirstValidIdx (validateTransactionBalances l) = findFirstValidIdx l := by
    apply ffvi_congr
    · exact hlen
    · intro j hj
      exact validate_isValid_getD l j (by omega)
  intro i
  induction i using Nat.strong_induction_on with
  | _ i ih =>
    intro hi
    rcases hk : findFirstValidIdx l with _ | k
    · have hk2 : findFirstValidIdx (validateTransactionBalances l) = none := by
        rw [hffvi, hk]
      rw [validate_getD_none _ i hk2 (by omega), validate_getD_none l i hk hi,
        isValid_setFlags]
      rfl
    · have hk2 : findFirstValidIdx (validateTransactionBalances l) = some k := by
        rw [hffvi, hk]
      rcases Nat.lt_or_ge k i with hki | hki
      · have h2 := validate_getD_loop (validateTransactionBalances l) k i hk2 hki (by omega)
        have h1 := validate_getD_loop l k i hk hki hi
        have hmap : (((validateTransactionBalances (validateTransactionBalances l))).take i).map clearTC
            = ((validateTransactionBalances l).take i).map clearTC := by
          apply map_clearTC_ext
          · simp [validate_length]
          · intro n hn
            have hni : n < i := by
              simp only [List.length_take] at hn
              omega
            rw [getD_take_lt _ i n hni, getD_take_lt _ i n hni]
            exact ih n hni (by omega)
        calc clearTC ((validateTransactionBalances (validateTransactionBalances l)).getD i dTx)
            = clearTC (step ((validateTransactionBalances (validateTransactionBalances l)).take i)
                ((validateTransactionBalances l).getD i dTx)) := by rw [h2]
          _ = clearTC (step ((validateTransactionBalances l).take i)
                ((validateTransactionBalances l).getD i dTx)) := by
                rw [step_congr _ _ hmap]
          _ = clearTC (step ((validateTransactionBalances l).take i)
                (step ((validateTransactionBalances l).take i) (l.getD i dTx))) := by
                rw [h1]
          _ = clearTC (step ((validateTransactionBalances l).take i) (l.getD i dTx)) :=
                step_idem _ _
          _ = clearTC ((validateTransactionBalances l).getD i dTx) := by rw [← h1]
      · rw [validate_getD_early _ k i hk2 hki, validate_getD_early l k i hk hki,
          isValid_setFlags]
        rfl

/-! ## Lemmas: the key normalizer and the diff -/

theorem getVal_cons_ne (k k2 : String) (v : JsVal) (tx : RawRow) (h : ¬(k = k2)) :
    getVal ((k, v) :: tx) k2 = getVal tx k2 := by
  unfold getVal
  have : (((k, v) :: tx).find? (fun kv => kv.1 == k2)) = tx.find? (fun kv => kv.1 == k2) := by
    rw [List.find?_cons]
    have hk : ((k, v).1 == k2) = false := by
      simp [h]
    rw [hk]
  rw [this]

theorem compareRow_rowIndex (i : ℕ) (hs : List String) (a b : RawRow) (c : CellChange)
    (hc : c ∈ compareRow i hs a b) : c.rowIndex = i := by
  unfold compareRow at hc
  rw [List.mem_filterMap] at hc
  obtain ⟨h, -, hf⟩ := hc
  split at hf
  · cases hf
    rfl
  · exact Option.noConfusion hf

theorem rowChangeLists_bound (hs : List String) :
    ∀ (ps : List (RawRow × RawRow)) (i : ℕ) (c : CellChange),
      c ∈ (rowChangeLists hs i ps).flatten → i ≤ c.rowIndex ∧ c.rowIndex < i + ps.length := by
  intro ps
  induction ps with
  | nil => intro i c hc; simp [rowChangeLists] at hc
  | cons p rest ih =>
    intro i c hc
    obtain ⟨x, y⟩ := p
    unfold rowChangeLists at hc
    rw [List.flatten_cons, List.mem_append] at hc
    rcases hc with hc | hc
    · have := compareRow_rowIndex i hs x y c hc
      simp only [List.length_cons]
      omega
    · have := ih (i + 1) c hc
      simp only [List.length_cons]
      omega

theorem compareResults_rowIndex_bound (a b : List RawRow) (c : CellChange)
    (hc : c ∈ (compareResults a b).cellChanges) :
    c.rowIndex < min a.length b.length := by
  unfold compareResults at hc
  simp only at hc
  have hbound := rowChangeLists_bound _ (a.zip b) 0 c hc
  have hz : (a.zip b).length = min a.length b.length := List.length_zip a b
  omega

/-! ## Claims -/

set_option maxRecDepth 8000

/-- Claim C1 counterexample: in the run `[firstValidRow, lateOpenRow]` the
opening-balance row at index 1 (after the first valid row) receives no
flags although its running balance (5000) is far outside the 0.10
tolerance of the previous valid row's balance (1000) under either sign of
its zero amount.  The claim as stated therefore fails for opening-balance
rows. -/
theorem reconciler_balance_invariant_cex :
    ((validateTransactionBalances [firstValidRow, lateOpenRow]).getD 1 dTx).invalidStructure = false ∧
    ((validateTransactionBalances [firstValidRow, lateOpenRow]).getD 1 dTx).balanceMismatch = false ∧
    ((validateTransactionBalances [firstValidRow, lateOpenRow]).getD 1 dTx).running_balance = some 5000 ∧
    ((validateTransactionBalances [firstValidRow, lateOpenRow]).getD 1 dTx).amount = some 0 ∧
    ((validateTransactionBalances [firstValidRow, lateOpenRow]).getD 0 dTx) = firstValidRow ∧
    isValidTransaction firstValidRow = true ∧
    ¬(|(5000 : ℚ) - signedExpected 1000 0 TxType.credit| ≤ BALANCE_TOLERANCE) ∧
    ¬(|(5000 : ℚ) - signedExpected 1000 0 TxType.debit| ≤ BALANCE_TOLERANCE) :=
  ⟨by with_unfolding_all rfl, by with_unfolding_all rfl, by with_unfolding_all rfl,
   by with_unfolding_all rfl, by with_unfolding_all rfl, by with_unfolding_all rfl,
   by norm_num [signedExpected, BALANCE_TOLERANCE],
   by norm_num [signedExpected, BALANCE_TOLERANCE]⟩

/-- Claim C1 (amended): for every run and every index `i` after the first
valid row, the output row at `i` is flagged `invalid_structure`, or
flagged `balance_mismatch`, or is an opening-balance row (`type = null` —
the amendment: such rows skip the arithmetic), or its balance satisfies
`|balance − (prev_balance + signed(amount))| ≤ 0.10` with respect to the
row at the greatest valid index `p < i`. -/
theorem reconciler_balance_invariant (l : List Tx) (k i : ℕ)
    (hk : findFirstValidIdx l = some k) (hi : i < l.length) (hki : k < i) :
    ((validateTransactionBalances l).getD i dTx).invalidStructure = true ∨
    ((validateTransactionBalances l).getD i dTx).balanceMismatch = true ∨
    ((validateTransactionBalances l).getD i dTx).type = none ∨
    ∃ p, p < i ∧
      isValidTransaction ((validateTransactionBalances l).getD p dTx) = true ∧
      (∀ q, p < q → q < i →
        isValidTransaction ((validateTransactionBalances l).getD q dTx) = false) ∧
      ∃ prevBal bal amt ty,
        ((validateTransactionBalances l).getD p dTx).running_balance = some prevBal ∧
        ((validateTransactionBalances l).getD i dTx).running_balance = some bal ∧
        ((validateTransactionBalances l).getD i dTx).amount = some amt ∧
        ((validateTransactionBalances l).getD i dTx).type = some ty ∧
        |bal - signedExpected prevBal amt ty| ≤ BALANCE_TOLERANCE := by
  have hloop := validate_getD_loop l k i hk hki hi
  rcases hv : isValidTransaction (l.getD i dTx) with _ | _
  · left
    rw [hloop, step_invalid _ _ hv]
  · obtain ⟨hk1, hkv, -⟩ := ffvi_some_spec l k hk
    have houtk : isValidTransaction ((validateTransactionBalances l).getD k dTx) = true := by
      rw [validate_isValid_getD l k hk1]
      exact hkv
    have htakelen : ((validateTransactionBalances l).take i).length = i := by
      rw [List.length_take, validate_length]
      omega
    have hmem : (validateTransactionBalances l).getD k dTx
        ∈ (validateTransactionBalances l).take i := by
      have hklen : k < ((validateTransactionBalances l).take i).length := by omega
      have hm := getD_mem ((validateTransactionBalances l).take i) k hklen
      rwa [getD_take_lt _ i k hki] at hm
    obtain ⟨prev, hfind⟩ := find?_some_of_valid_mem hmem houtk
    obtain ⟨j, hjlen, hjget, hjval, hjmax⟩ := reverseFind_some_spec _ prev hfind
    rw [htakelen] at hjlen
    have hjget2 : (validateTransactionBalances l).getD j dTx = prev := by
      rw [← getD_take_lt (validateTransactionBalances l) i j hjlen]
      exact hjget
    obtain ⟨pbal, hpbal⟩ := isValid_running_balance hjval
    obtain ⟨bal, hbal⟩ := isValid_running_balance hv
    have hqmax : ∀ q, j < q → q < i →
        isValidTransaction ((validateTransactionBalances l).getD q dTx) = false := by
      intro q hq1 hq2
      have := hjmax q hq1 (by omega)
      rwa [getD_take_lt _ i q hq2] at this
    rcases hty : (l.getD i dTx).type with _ | ty
    · right; right; left
      rw [hloop, step_opening _ _ prev hv hfind hty]
      exact hty
    · obtain ⟨amt, hamt⟩ := isValid_amount_of_type_some hv hty
      rw [hloop, step_arith _ _ prev pbal bal amt ty hv hfind hpbal hbal hamt hty]
      by_cases h1 : |bal - signedExpected pbal amt ty| ≤ BALANCE_TOLERANCE
      · rw [if_pos h1]
        right; right; right
        exact ⟨j, hjlen, by rw [hjget2]; exact hjval, hqmax, pbal, bal, amt, ty,
          by rw [hjget2]; exact hpbal, hbal, hamt, hty, h1⟩
      · rw [if_neg h1]
        by_cases h2 : |bal - signedExpected pbal amt (flipType ty)| ≤ BALANCE_TOLERANCE
        · rw [if_pos h2]
          right; right; right
          exact ⟨j, hjlen, by rw [hjget2]; exact hjval, hqmax, pbal, bal, amt, flipType ty,
            by rw [hjget2]; exact hpbal, hbal, hamt, rfl, h2⟩
        · rw [if_neg h2]
          right; left
          rfl

/-- Claim C1 witness: the amended invariant instantiated on the concrete
run `[firstValidRow, lateOpenRow]` at index 1. -/
theorem reconciler_balance_invariant_witness :
    ((validateTransactionBalances [firstValidRow, lateOpenRow]).getD 1 dTx).invalidStructure = true ∨
    ((validateTransactionBalances [firstValidRow, lateOpenRow]).getD 1 dTx).balanceMismatch = true ∨
    ((validateTransactionBalances [firstValidRow, lateOpenRow]).getD 1 dTx).type = none ∨
    ∃ p, p < 1 ∧
      isValidTransaction ((validateTransactionBalances [firstValidRow, lateOpenRow]).getD p dTx) = true ∧
      (∀ q, p < q → q < 1 →
        isValidTransaction ((validateTransactionBalances [firstValidRow, lateOpenRow]).getD q dTx) = false) ∧
      ∃ prevBal bal amt ty,
        ((validateTransactionBalances [firstValidRow, lateOpenRow]).getD p dTx).running_balance = some prevBal ∧
        ((validateTransactionBalances [firstValidRow, lateOpenRow]).getD 1 dTx).running_balance = some bal ∧
        ((validateTransactionBalances [firstValidRow, lateOpenRow]).getD 1 dTx).amount = some amt ∧
        ((validateTransactionBalances [firstValidRow, lateOpenRow]).getD 1 dTx).type = some ty ∧
        |bal - signedExpected prevBal amt ty| ≤ BALANCE_TOLERANCE :=
  reconciler_balance_invariant [firstValidRow, lateOpenRow] 0 1
    (by with_unfolding_all rfl) (by decide) (by decide)

/-- Claim C2 counterexample: a single valid input row whose
`typeCorrected` flag is already set is passed through the reconciler with
the flag still true but its stored type unchanged (credit, not the flip
debit), so an output row with `type_corrected = true` need not carry a
flipped type. -/
theorem typeCorrected_flip_cex :
    ((validateTransactionBalances [markedRow]).getD 0 dTx).typeCorrected = true ∧
    ((validateTransactionBalances [markedRow]).getD 0 dTx).type = some TxType.credit ∧
    markedRow.type = some TxType.credit ∧
    ¬((validateTransactionBalances [markedRow]).getD 0 dTx).type
        = some (flipType TxType.credit) :=
  ⟨by with_unfolding_all rfl, by with_unfolding_all rfl, rfl,
   by with_unfolding_all decide⟩

/-- Claim C2 (amended): every output row whose `typeCorrected` flag is
true while the corresponding input row's flag was false — i.e. every flag
actually set by the reconciler — has `balanceMismatch = false`, carries
the flip of the input row's type, and satisfies the 0.10 tolerance with
the flipped type against the most recent previously valid processed
row. -/
theorem typeCorrected_fresh_flip (l : List Tx) (i : ℕ) (hi : i < l.length)
    (hout : ((validateTransactionBalances l).getD i dTx).typeCorrected = true)
    (hin : (l.getD i dTx).typeCorrected = false) :
    ((validateTransactionBalances l).getD i dTx).balanceMismatch = false ∧
    ∃ ty prev prevBal bal amt,
      (l.getD i dTx).type = some ty ∧
      ((validateTransactionBalances l).getD i dTx).type = some (flipType ty) ∧
      ((validateTransactionBalances l).take i).reverse.find? isValidTransaction = some prev ∧
      prev.running_balance = some prevBal ∧
      ((validateTransactionBalances l).getD i dTx).running_balance = some bal ∧
      ((validateTransactionBalances l).getD i dTx).amount = some amt ∧
      |bal - signedExpected prevBal amt (flipType ty)| ≤ BALANCE_TOLERANCE := by
  rcases hk : findFirstValidIdx l with _ | k
  · rw [validate_getD_none l i hk hi] at hout
    have h2 : (l.getD i dTx).typeCorrected = true := hout
    rw [hin] at h2
    exact Bool.noConfusion h2
  · rcases Nat.lt_or_ge k i with hki | hki
    · have hloop := validate_getD_loop l k i hk hki hi
      rcases hv : isValidTransaction (l.getD i dTx) with _ | _
      · rw [hloop, step_invalid _ _ hv] at hout
        have h2 : (l.getD i dTx).typeCorrected = true := hout
        rw [hin] at h2
        exact Bool.noConfusion h2
      · rcases hfind : ((validateTransactionBalances l).take i).reverse.find? isValidTransaction
          with _ | prev
        · rw [hloop, step_noPrev _ _ hv hfind] at hout
          have h2 : (l.getD i dTx).typeCorrected = true := hout
          rw [hin] at h2
          exact Bool.noConfusion h2
        · have hvp := List.find?_some hfind
          obtain ⟨pbal, hpbal⟩ := isValid_running_balance hvp
          obtain ⟨bal, hbal⟩ := isValid_running_balance hv
          rcases hty : (l.getD i dTx).type with _ | ty
          · rw [hloop, step_opening _ _ prev hv hfind hty] at hout
            have h2 : (l.getD i dTx).typeCorrected = true := hout
            rw [hin] at h2
            exact Bool.noConfusion h2
          · obtain ⟨amt, hamt⟩ := isValid_amount_of_type_some hv hty
            have harith := step_arith ((validateTransactionBalances l).take i) _ prev
              pbal bal amt ty hv hfind hpbal hbal hamt hty
            by_cases h1 : |bal - signedExpected pbal amt ty| ≤ BALANCE_TOLERANCE
            · rw [hloop, harith, if_pos h1] at hout
              exact Bool.noConfusion hout
            · by_cases h2 : |bal - signedExpected pbal amt (flipType ty)| ≤ BALANCE_TOLERANCE
              · rw [hloop, harith, if_neg h1, if_pos h2]
                exact ⟨rfl, ty, prev, pbal, bal, amt, rfl, rfl, rfl, hpbal, hbal, hamt, h2⟩
              · rw [hloop, harith, if_neg h1, if_neg h2] at hout
                exact Bool.noConfusion hout
    · rw [validate_getD_early l k i hk hki] at hout
      have h2 : (l.getD i dTx).typeCorrected = true := hout
      rw [hin] at h2
      exact Bool.noConfusion h2

/-- Claim C2 witness: in the S2 run `[openRow, flipRow]` the reconciler
sets `typeCorrected` on row 1 (input flag false), and that row has
`balanceMismatch = false`. -/
theorem typeCorrected_fresh_flip_witness :
    ((validateTransactionBalances [openRow, flipRow]).getD 1 dTx).balanceMismatch = false :=
  (typeCorrected_fresh_flip [openRow, flipRow] 1 (by decide)
    (by with_unfolding_all rfl) rfl).1

/-- Claim C3 counterexample: in the run `[invalidRow, plainRow]` the
invalid row before the first valid row is marked `invalid_structure =
true` but `balance_mismatch = false`, not `true` as claimed. -/
theorem early_rows_flags_cex :
    ((validateTransactionBalances [invalidRow, plainRow]).getD 0 dTx).invalidStructure = true ∧
    ((validateTransactionBalances [invalidRow, plainRow]).getD 0 dTx).balanceMismatch = false :=
  ⟨by with_unfolding_all rfl, by with_unfolding_all rfl⟩

/-- Claim C3 (amended): every row strictly before the first row satisfying
the validity predicate is marked `invalid_structure = true` and
`balance_mismatch = false` (the code resets the mismatch flag on the
prefix rather than setting it). -/
theorem early_rows_flags (l : List Tx) (k j : ℕ)
    (hk : findFirstValidIdx l = some k) (hj : j < k) :
    ((validateTransactionBalances l).getD j dTx).invalidStructure = true ∧
    ((validateTransactionBalances l).getD j dTx).balanceMismatch = false := by
  obtain ⟨hk1, -, hmin⟩ := ffvi_some_spec l k hk
  rw [validate_getD_early l k j hk (le_of_lt hj)]
  constructor
  · show (! isValidTransaction (l.getD j dTx)) = true
    rw [hmin j hj]
    rfl
  · rfl

/-- Claim C3 witness: the amended statement on the run
`[invalidRow, invalidRow2, plainRow]` at index 1 (first valid index 2). -/
theorem early_rows_flags_witness :
    ((validateTransactionBalances [invalidRow, invalidRow2, plainRow]).getD 1 dTx).invalidStructure = true ∧
    ((validateTransactionBalances [invalidRow, invalidRow2, plainRow]).getD 1 dTx).balanceMismatch = false :=
  early_rows_flags [invalidRow, invalidRow2, plainRow] 2 1
    (by with_unfolding_all rfl) (by decide)

/-- Claim C4 counterexample: on the S2 run `[openRow, flipRow]` the first
reconciliation sets `typeCorrected` on row 1, but running the reconciler a
second time clears it, so the two outputs differ and the reconciler is not
idempotent. -/
theorem reconciler_idempotent_cex :
    ((validateTransactionBalances (validateTransactionBalances [openRow, flipRow])).getD 1 dTx).typeCorrected = false ∧
    ((validateTransactionBalances [openRow, flipRow]).getD 1 dTx).typeCorrected = true :=
  ⟨by with_unfolding_all rfl, by with_unfolding_all rfl⟩

/-- Claim C4 (amended): applying the reconciler twice yields the same
output as applying it once on every field except `typeCorrected` (the
second pass clears `typeCorrected` flags set by the first): the two
outputs are equal after clearing that one flag on both. -/
theorem reconciler_idempotent_mod_typeCorrected (l : List Tx) :
    (validateTransactionBalances (validateTransactionBalances l)).map clearTC
      = (validateTransactionBalances l).map clearTC := by
  apply map_clearTC_ext
  · exact validate_length (validateTransactionBalances l)
  · intro n hn
    rw [validate_length, validate_length] at hn
    exact validate_twice_clearTC_getD l n hn

/-- Claim C5: a row (after the first valid one) whose balance satisfies
the 0.10 tolerance with both the original and the flipped type keeps its
original type and is not marked `typeCorrected`: the reconciler prefers
the original type. -/
theorem tiebreak_prefers_original (l : List Tx) (k i : ℕ) (ty : TxType)
    (prev : Tx) (prevBal bal amt : ℚ)
    (hk : findFirstValidIdx l = some k) (hi : i < l.length) (hki : k < i)
    (hv : isValidTransaction (l.getD i dTx) = true)
    (hty : (l.getD i dTx).type = some ty)
    (hamt : (l.getD i dTx).amount = some amt)
    (hbal : (l.getD i dTx).running_balance = some bal)
    (hfind : ((validateTransactionBalances l).take i).reverse.find? isValidTransaction
      = some prev)
    (hpb : prev.running_balance = some prevBal)
    (h1 : |bal - signedExpected prevBal amt ty| ≤ BALANCE_TOLERANCE)
    (h2 : |bal - signedExpected prevBal amt (flipType ty)| ≤ BALANCE_TOLERANCE) :
    ((validateTransactionBalances l).getD i dTx).type = (l.getD i dTx).type ∧
    ((validateTransactionBalances l).getD i dTx).typeCorrected = false := by
  rw [validate_getD_loop l k i hk hki hi,
    step_arith _ _ prev prevBal bal amt ty hv hfind hpb hbal hamt hty, if_pos h1]
  exact ⟨rfl, rfl⟩

/-- Claim C5 witness: the zero-amount row of `[plainRow, zeroAmountRow]`
satisfies the tolerance under both orientations; its type and
`typeCorrected` flag are untouched. -/
theorem tiebreak_prefers_original_witness :
    ((validateTransactionBalances [plainRow, zeroAmountRow]).getD 1 dTx).type
        = ([plainRow, zeroAmountRow].getD 1 dTx).type ∧
    ((validateTransactionBalances [plainRow, zeroAmountRow]).getD 1 dTx).typeCorrected = false :=
  tiebreak_prefers_original [plainRow, zeroAmountRow] 0 1 TxType.credit plainRow 1500 1500 0
    (by with_unfolding_all rfl) (by decide) (by decide) (by with_unfolding_all rfl)
    rfl rfl rfl (by with_unfolding_all rfl) rfl
    (by norm_num [signedExpected, BALANCE_TOLERANCE])
    (by norm_num [signedExpected, flipType, BALANCE_TOLERANCE])

/-- Claim C6 counterexample: no key cleaning is performed.  The S5 raw row
with an embedded newline in its date key (`"Transaction\nDate"`) is
dropped entirely by the normalizer (no date resolves), while the same row
with the cleaned key `"Transaction Date"` normalizes to the canonical
row.  A key differing only by embedded whitespace therefore does not
resolve to the same canonical field. -/
theorem key_cleaning_cex :
    normalizeTransactionData [s5DirtyRawRow] = [] ∧
    normalizeTransactionData [s5RawRow] = [s5NormalizedRow] :=
  ⟨by with_unfolding_all rfl, by with_unfolding_all rfl⟩

/-- Claim C6 (amended): the normalizer performs no whitespace cleaning of
keys; raw-row keys are matched verbatim against the recognized candidate
keys, so a key outside that list — in particular any whitespace variant of
a candidate key — is ignored entirely by field resolution. -/
theorem normalizer_ignores_unrecognized_keys (k : String) (v : JsVal) (tx : RawRow)
    (hk : ¬ k ∈ recognizedKeys) :
    normalizeOne ((k, v) :: tx) = normalizeOne tx := by
  have e1 := getVal_cons_ne k "date" v tx (fun h => hk (by rw [h]; decide))
  have e2 := getVal_cons_ne k "Transaction Date" v tx (fun h => hk (by rw [h]; decide))
  have e3 := getVal_cons_ne k "Value Date" v tx (fun h => hk (by rw [h]; decide))
  have e4 := getVal_cons_ne k "Date" v tx (fun h => hk (by rw [h]; decide))
  have e5 := getVal_cons_ne k "description" v tx (fun h => hk (by rw [h]; decide))
  have e6 := getVal_cons_ne k "Transaction Remarks" v tx (fun h => hk (by rw [h]; decide))
  have e7 := getVal_cons_ne k "Narration" v tx (fun h => hk (by rw [h]; decide))
  have e8 := getVal_cons_ne k "Transaction details" v tx (fun h => hk (by rw [h]; decide))
  have e9 := getVal_cons_ne k "amount" v tx (fun h => hk (by rw [h]; decide))
  have e10 := getVal_cons_ne k "type" v tx (fun h => hk (by rw [h]; decide))
  have e11 := getVal_cons_ne k "Debit" v tx (fun h => hk (by rw [h]; decide))
  have e12 := getVal_cons_ne k "Withdrawal (Dr)" v tx (fun h => hk (by rw [h]; decide))
  have e13 := getVal_cons_ne k "Credit" v tx (fun h => hk (by rw [h]; decide))
  have e14 := getVal_cons_ne k "Deposit(Cr)" v tx (fun h => hk (by rw [h]; decide))
  have e15 := getVal_cons_ne k "running_balance" v tx (fun h => hk (by rw [h]; decide))
  have e16 := getVal_cons_ne k "Balance" v tx (fun h => hk (by rw [h]; decide))
  have e17 := getVal_cons_ne k "balanceMismatch" v tx (fun h => hk (by rw [h]; decide))
  have e18 := getVal_cons_ne k "typeCorrected" v tx (fun h => hk (by rw [h]; decide))
  have e19 := getVal_cons_ne k "invalidStructure" v tx (fun h => hk (by rw [h]; decide))
  simp only [normalizeOne, amountTypeFallback, nonEmptyStrAt, strAt]
  rw [e1, e2, e3, e4, e5, e6, e7, e8, e9, e10, e11, e12, e13, e14, e15, e16, e17, e18, e19]

/-- Claim C6 witness: the whitespace-variant key is unrecognized and its
row entry is ignored by the normalizer. -/
theorem normalizer_ignores_unrecognized_keys_witness :
    normalizeOne [("Transaction\nDate", JsVal.str "10/Apr/2024")] = normalizeOne [] :=
  normalizer_ignores_unrecognized_keys "Transaction\nDate" (JsVal.str "10/Apr/2024") []
    (by decide)

/-- Claim C7: the S5 raw row normalizes to exactly the canonical row
`{date: "10/Apr/2024", description: "X", amount: 1500.50, type: debit,
running_balance: 25000.75}`, with commas stripped from the numeric strings
before parsing. -/
theorem normalize_s5_aliasing :
    normalizeTransactionData [s5RawRow] = [s5NormalizedRow] := by
  with_unfolding_all rfl

/-- Claim C8: the diff analysis on the S6 single-row lists reports
`rowsModified = 1`, exactly the one cell change
`{rowIndex: 0, header: "description", old: "A", new: "A2"}` and
`fieldChangeCounts = {description: 1}`; and in general every recorded cell
change refers to a row index below `min(|original|, |corrected|)` (the
comparison is positional over the zipped prefix). -/
theorem diff_analysis_s6 :
    compareResults [s6OriginalRow] [s6CorrectedRow]
      = { rowsAdded := 0, rowsDeleted := 0, rowsModified := 1,
          cellChanges := [⟨0, "description", JsVal.str "A", JsVal.str "A2"⟩],
          fieldChangeCounts := [("description", 1)] } ∧
    ∀ (a b : List RawRow) (c : CellChange), c ∈ (compareResults a b).cellChanges →
      c.rowIndex < min a.length b.length :=
  ⟨by with_unfolding_all rfl, compareResults_rowIndex_bound⟩

/-- Claim C8 witness: the general bound applied to the S6 lists and their
single recorded cell change. -/
theorem diff_analysis_s6_witness :
    (⟨0, "description", JsVal.str "A", JsVal.str "A2"⟩ : CellChange).rowIndex
      < min [s6OriginalRow].length [s6CorrectedRow].length :=
  diff_analysis_s6.2 [s6OriginalRow] [s6CorrectedRow]
    ⟨0, "description", JsVal.str "A", JsVal.str "A2"⟩ (by with_unfolding_all decide)

/-- Claim C9 counterexample: the id `"a/b.csv"` passes the endpoint's
guard (non-empty, no `..`, ends in `.csv`) and proceeds to the file
lookup, yet does not match the pattern `[A-Za-z0-9_.\-]+\.csv` because of
the slash.  The endpoint therefore accepts ids outside the claimed
pattern. -/
theorem download_guard_cex :
    downloadIdAccepted "a/b.csv" = true ∧ specCsvPattern "a/b.csv" = false :=
  ⟨by with_unfolding_all rfl, by with_unfolding_all rfl⟩

/-- Claim C9 (amended): the endpoint accepts an id iff it is non-empty,
contains no `..` substring, and ends with `.csv` — a strictly weaker check
than the claimed pattern; in particular every pattern-matching id without
a `..` in it is accepted. -/
theorem download_guard_characterization :
    (∀ id : String, downloadIdAccepted id = true ↔
        (id.isEmpty = false ∧ strContains id ".." = false ∧ strEndsWith id ".csv" = true)) ∧
    (∀ id : String, specCsvPattern id = true → strContains id ".." = false →
        downloadIdAccepted id = true) := by
  constructor
  · intro id
    unfold downloadIdAccepted
    rcases h1 : id.isEmpty with _ | _ <;> rcases h2 : strContains id ".." with _ | _
      <;> rcases h3 : strEndsWith id ".csv" with _ | _ <;> simp
  · intro id hp hdot
    simp only [specCsvPattern, Bool.and_eq_true] at hp
    obtain ⟨⟨hends, -⟩, -⟩ := hp
    have hne : id.isEmpty = false := by
      by_cases heq : id = ""
      · subst heq
        exact absurd hends (by decide)
      · rcases h : id.isEmpty with _ | _
        · rfl
        · exact absurd ((String.isEmpty_iff id).mp h) heq
    unfold downloadIdAccepted
    rw [hne, hdot, hends]
    rfl

/-- Claim C9 witness: the amended acceptance applied to the well-formed id
`"x.csv"`. -/
theorem download_guard_witness : downloadIdAccepted "x.csv" = true :=
  download_guard_characterization.2 "x.csv" (by with_unfolding_all rfl)
    (by with_unfolding_all rfl)

/-- Claim C10: for a null, empty, or short (trimmed length below 50) page
text the classifier returns null immediately and issues no LLM request;
whenever the trimmed length is at least 50, exactly one request is issued,
namely the identification prompt built from the first 2000 characters. -/
theorem bank_id_guard (llm : String → Except Unit String) (t : Option String) :
    ((t = none ∨ ∃ s, t = some s ∧ (jsTrim s).data.length < 50) →
      identifyBankWithAI llm t = (none, [])) ∧
    (∀ s, t = some s → 50 ≤ (jsTrim s).data.length →
      (identifyBankWithAI llm t).2 = [mkIdentPrompt (strTake s 2000)]) := by
  constructor
  · intro h
    rcases t with _ | s
    · rfl
    · rcases h with h | ⟨s2, hs2, hlen⟩
      · exact Option.noConfusion h
      · have hs : s2 = s := (Option.some.inj hs2).symm
        subst hs
        show identifyBankWithAI llm (some s2) = (none, [])
        simp only [identifyBankWithAI]
        by_cases he : s2.isEmpty = true
        · rw [if_pos he]
        · rw [if_neg he, if_pos hlen]
  · intro s hs hlen
    subst hs
    simp only [identifyBankWithAI]
    have he : s.isEmpty = false := by
      rcases hemp : s.isEmpty with _ | _
      · rfl
      · have hse : s = "" := (String.isEmpty_iff s).mp hemp
        subst hse
        have h0 : (jsTrim "").data.length = 0 := rfl
        omega
    rw [if_neg (by simp [he])]
    have hlt : ¬((jsTrim s).data.length < 50) := by omega
    rw [if_neg hlt]
    rcases llm (mkIdentPrompt (strTake s 2000)) with e | resp
    · rfl
    · rfl

/-- Claim C10 witness: a short text yields null with no request; a long
text issues exactly the truncated identification prompt. -/
theorem bank_id_guard_witness :
    identifyBankWithAI (fun _ => Except.error ()) (some "hi") = (none, []) ∧
    (identifyBankWithAI (fun _ => Except.ok "HDFC Bank") (some longPageText)).2
      = [mkIdentPrompt (strTake longPageText 2000)] :=
  ⟨(bank_id_guard (fun _ => Except.error ()) (some "hi")).1 (Or.inr ⟨"hi", rfl, by decide⟩),
   (bank_id_guard (fun _ => Except.ok "HDFC Bank") (some longPageText)).2 longPageText rfl
     (by decide)⟩

end BankParse
